import Mathlib

/-!
Verification of the gitCommit VSCode extension's core logic against its
specification.  The development shallowly embeds the pure computational
content of the TypeScript sources:

* `messageCombine` (src/extension.ts): commit-template placeholder
  substitution, modelled on `List Char` with a literal-string global
  replacement function mirroring JavaScript
  `String.prototype.replace(/tok/g, value)` for the eight fixed
  placeholder tokens.  The JavaScript `$`-escape semantics of the
  replacement string are not modelled; theorems that depend on the exact
  JS behaviour therefore restrict field values to `$`-free strings.
* `ConfigService` (configService.ts): `.gitcommit` config selection and
  regex-based version extraction.  File-system access and JSON parsing
  are abstracted into environment records (functions from paths to the
  parsed results); the JavaScript `RegExp` engine is modelled by a small
  backtracking matcher over the construct subset actually used by the
  program (literals, escapes, character classes, groups, `*`, `+`, `?`),
  with unsupported syntax treated like an invalid pattern (no version),
  mirroring the catch-and-null error path.
* `VersionService.getCurrentVersion` (versionService.ts): the
  config-file → exact tag → short hash priority chain, with the git
  command results supplied by an environment record.
* `GitFlowService` (gitFlowService): every operation is modelled as a
  function from an abstract repository state to a result, a final state
  and the exact ordered trace of git command invocations.  The abstract
  `exec` models the behaviour of the git CLI commands the service
  issues (config get/set, checkout, checkout -b, pull, merge --no-ff,
  tag -a, branch -d, branch --list, rev-parse).
-/

deriving instance DecidableEq for Except

/-- Whitespace predicate used by the model of JavaScript `String.trim`
(the common ASCII whitespace characters). -/
def isWS (c : Char) : Bool :=
  c == ' ' || c == '\t' || c == '\n' || c == '\r' || c == '\x0b' || c == '\x0c'

/-- Model of JavaScript `String.prototype.trim` on character lists:
drop leading and trailing whitespace. -/
def trim (s : List Char) : List Char :=
  ((s.dropWhile isWS).reverse.dropWhile isWS).reverse

/-- `trim` lifted to `String`. -/
def strTrim (s : String) : String := String.mk (trim s.data)

/-- Does `pat` occur as a contiguous substring of the list?  (Model of
JavaScript `String.prototype.includes` and of "contains a literal
placeholder token".) -/
def occurs (pat : List Char) : List Char → Bool
  | [] => pat.isEmpty
  | c :: s => pat.isPrefixOf (c :: s) || occurs pat s

/-- Fuel-driven worker for `replaceAll`.  With fuel at least the length
of the subject string it performs leftmost, non-overlapping global
replacement of the literal pattern `t` by `v`, exactly like the
JavaScript `s.replace(/t/g, v)` calls in `messageCombine` (scanning
resumes after the replaced match, the replacement is not rescanned). -/
def replFuel (t v : List Char) : Nat → List Char → List Char
  | 0, s => s
  | _ + 1, [] => []
  | n + 1, c :: s =>
    if t.isPrefixOf (c :: s) && !t.isEmpty then
      v ++ replFuel t v n ((c :: s).drop t.length)
    else
      c :: replFuel t v n s

/-- Global replacement of the literal token `t` by `v` in `s`: the model
of `result.replace(/t/g, v)` from `messageCombine`. -/
def replaceAll (t v s : List Char) : List Char := replFuel t v s.length s

/-- A placeholder token is shaped `'<'` followed by `'<'`-free text
(true of all eight tokens of the renderer). -/
def tokenShaped (t : List Char) : Bool :=
  match t with
  | c :: r => c == '<' && r.all (fun x => decide (x ≠ '<'))
  | [] => false

/-- Strings built from `'<'`-free literal characters and whole
placeholder tokens drawn from `T` — i.e. strings in which every `'<'`
begins a placeholder-token occurrence. -/
inductive TokStr (T : List (List Char)) : List Char → Prop where
  | nil : TokStr T []
  | chr : ∀ (c : Char) (s : List Char), c ≠ '<' → TokStr T s → TokStr T (c :: s)
  | tok : ∀ (u : List Char) (s : List Char), u ∈ T → TokStr T s → TokStr T (u ++ s)

/-- Fuel-driven checker for `TokStr` (greedy: at each position consume a
token of `T` if one starts there, otherwise a non-`'<'` character). -/
def tokStrBF : Nat → List (List Char) → List Char → Bool
  | 0, _, _ => false
  | _ + 1, _, [] => true
  | n + 1, T, c :: rest =>
    match T.find? (fun t => !t.isEmpty && t.isPrefixOf (c :: rest)) with
    | some t => tokStrBF n T ((c :: rest).drop t.length)
    | none => decide (c ≠ '<') && tokStrBF n T rest

/-- Executable `TokStr` check. -/
def tokStrB (T : List (List Char)) (s : List Char) : Bool :=
  tokStrBF (s.length + 1) T s

/-- The commit-message field record of the extension
(`GitCommitMessage` in types/commit.ts), with string contents as
character lists. -/
structure GitCommitMessage where
  templateName : List Char
  templateContent : List Char
  icon : List Char
  type : List Char
  scope : List Char
  subject : List Char
  body : List Char
  footer : List Char
deriving DecidableEq

/-- The token `<icon>`. -/
def iconT : List Char := "<icon>".data
/-- The token `<type>`. -/
def typeT : List Char := "<type>".data
/-- The token `<scope>`. -/
def scopeT : List Char := "<scope>".data
/-- The token `<subject>`. -/
def subjT : List Char := "<subject>".data
/-- The token `<body>`. -/
def bodyT : List Char := "<body>".data
/-- The token `<footer>`. -/
def footT : List Char := "<footer>".data
/-- The token `<enter>`. -/
def entT : List Char := "<enter>".data
/-- The token `<space>`. -/
def spcT : List Char := "<space>".data

/-- All eight placeholder tokens recognised by `messageCombine`, in
substitution order. -/
def placeholderToks : List (List Char) :=
  [iconT, typeT, scopeT, subjT, bodyT, footT, entT, spcT]

/-- The eight substitution passes of `messageCombine`
(src/extension.ts, lines 96–116).  Mirrors the source's conditional
replacements: `<icon>` is replaced by the icon only when emoji display
is enabled, each other field by its value or the empty string, then
`<enter>` by a paragraph break and `<space>` by a space. -/
def substPasses (isShowEmoji : Bool) (config : GitCommitMessage) : List Char :=
  let r := config.templateContent
  let r := if isShowEmoji then replaceAll iconT config.icon r else replaceAll iconT [] r
  let r := if config.type.isEmpty then replaceAll typeT [] r else replaceAll typeT config.type r
  let r := if config.scope.isEmpty then replaceAll scopeT [] r else replaceAll scopeT config.scope r
  let r := if config.subject.isEmpty then replaceAll subjT [] r else replaceAll subjT config.subject r
  let r := if config.body.isEmpty then replaceAll bodyT [] r else replaceAll bodyT config.body r
  let r := if config.footer.isEmpty then replaceAll footT [] r else replaceAll footT config.footer r
  let r := replaceAll entT ['\n', '\n'] r
  replaceAll spcT [' '] r

/-- The rendering part of `messageCombine` (src/extension.ts, lines
85–161): the substitution passes followed by the final `trim`.  The
`autoVersion` enrichment (an orthogonal append of version info) is out
of scope here. -/
def messageCombine (isShowEmoji : Bool) (config : GitCommitMessage) : List Char :=
  trim (substPasses isShowEmoji config)

/-- Regular-expression abstract syntax for the construct subset used by
the program's `versionRegex` patterns (see `readVersionFromFile`). -/
inductive Re where
  | eps : Re
  | tok : (Char → Bool) → Re
  | seq : Re → Re → Re
  | star : Re → Re
  | plus : Re → Re
  | opt : Re → Re
  | grp : Nat → Re → Re

/-- Character predicate for a regex escape (`\d`, `\s`, `\w`, or an
escaped literal); `none` for escapes outside the modelled subset. -/
def escPred (e : Char) : Option (Char → Bool) :=
  if e == 'd' then some (fun c => c.isDigit)
  else if e == 's' then some isWS
  else if e == 'w' then some (fun c => c.isAlphanum || c == '_')
  else if e == '.' || e == '\\' || e == '"' || e == '/' || e == ':' || e == '+'
       || e == '*' || e == '?' || e == '(' || e == ')' || e == '[' || e == ']'
       || e == '|' || e == '^' || e == '$' || e == '-' || e == ' ' then
    some (fun c => c == e)
  else none

/-- Parse the items of a character class after the opening `[`; returns
the member predicates and the rest of the pattern after `]`. -/
def parseClsItems : List Char → Option (List (Char → Bool) × List Char)
  | ']' :: r => some ([], r)
  | '\\' :: e :: r =>
    match escPred e with
    | some p =>
      match parseClsItems r with
      | some (ps, r1) => some (p :: ps, r1)
      | none => none
    | none => none
  | c :: r =>
    if c == '\\' then none
    else
      match parseClsItems r with
      | some (ps, r1) => some ((fun x => x == c) :: ps, r1)
      | none => none
  | [] => none

/-- Characters that cannot stand as bare literals in a pattern (either
regex operators handled elsewhere or constructs outside the modelled
subset). -/
def specialChar (c : Char) : Bool :=
  c == '*' || c == '+' || c == '?' || c == '(' || c == ')' || c == '|'
  || c == '^' || c == '$' || c == '\x7b' || c == '\x7d' || c == '\\'

/-- Fuel-driven recursive-descent parser for a pattern sequence; `g` is
the number of capture groups opened so far (JavaScript numbers groups by
the order of their opening parentheses, starting at 1).  Returns the
parsed expression, the unconsumed rest (stopping at a closing `)`), and
the updated group count.  Unsupported syntax yields `none`. -/
def parseR : Nat → Nat → List Char → Option (Re × List Char × Nat)
  | 0, _, _ => none
  | fuel + 1, g, s =>
    match s with
    | [] => some (Re.eps, [], g)
    | ')' :: _ => some (Re.eps, s, g)
    | c :: rest =>
      let atomRes : Option (Re × List Char × Nat) :=
        if c == '(' then
          match parseR fuel (g + 1) rest with
          | some (a, ')' :: r2, g1) => some (Re.grp (g + 1) a, r2, g1)
          | _ => none
        else if c == '[' then
          match parseClsItems rest with
          | some (ps, r1) => some (Re.tok (fun ch => ps.any (fun p => p ch)), r1, g)
          | none => none
        else if c == '\\' then
          match rest with
          | e :: r =>
            match escPred e with
            | some p => some (Re.tok p, r, g)
            | none => none
          | [] => none
        else if c == '.' then
          some (Re.tok (fun ch => decide (ch ≠ '\n')), rest, g)
        else if specialChar c then none
        else some (Re.tok (fun x => x == c), rest, g)
      match atomRes with
      | none => none
      | some (a, s1, g1) =>
        let aq : Re × List Char :=
          match s1 with
          | '*' :: r => (Re.star a, r)
          | '+' :: r => (Re.plus a, r)
          | '?' :: r => (Re.opt a, r)
          | _ => (a, s1)
        match parseR fuel g1 aq.2 with
        | some (b, s3, g2) => some (Re.seq aq.1 b, s3, g2)
        | none => none

/-- Parse a whole pattern string to a regex, `none` when the pattern is
not fully consumed or contains unsupported syntax (modelling the
catch-and-null path for an unusable `versionRegex`). -/
def parseRegex (p : String) : Option Re :=
  match parseR (2 * p.data.length + 4) 0 p.data with
  | some (re, [], _) => some re
  | _ => none

/-- A match result: the matched substring and the captures, most recent
first, as (group index, captured text) pairs. -/
abbrev MRes := List Char × List (Nat × List Char)

/-- Structural size of a regex (used to compute matcher fuel). -/
def reSize : Re → Nat
  | Re.eps => 1
  | Re.tok _ => 1
  | Re.seq a b => reSize a + reSize b + 1
  | Re.star a => reSize a + 1
  | Re.plus a => reSize a + 1
  | Re.opt a => reSize a + 1
  | Re.grp _ a => reSize a + 1

/-- Fuel-driven backtracking matcher in continuation style.  Greedy
quantifiers try the longer alternative first and an empty star
iteration is cut off, matching JavaScript regex semantics for the
modelled subset; the first success in this order is the JS match. -/
def mre : Nat → Re → List Char → List (Nat × List Char) →
    (List Char → List (Nat × List Char) → Option MRes) → Option MRes
  | 0, _, _, _, _ => none
  | n + 1, re, s, caps, k =>
    match re with
    | Re.eps => k s caps
    | Re.tok p =>
      match s with
      | [] => none
      | c :: rest => if p c then k rest caps else none
    | Re.seq a b => mre n a s caps (fun s1 c1 => mre n b s1 c1 k)
    | Re.star a =>
      match mre n a s caps
          (fun s1 c1 => if s1.length < s.length then mre n (Re.star a) s1 c1 k else none) with
      | some r => some r
      | none => k s caps
    | Re.plus a => mre n (Re.seq a (Re.star a)) s caps k
    | Re.opt a =>
      match mre n a s caps k with
      | some r => some r
      | none => k s caps
    | Re.grp i a =>
      mre n a s caps (fun s1 c1 => k s1 ((i, s.take (s.length - s1.length)) :: c1))

/-- Try to match `re` at the start of `t`. -/
def matchAt (re : Re) (t : List Char) : Option MRes :=
  mre ((t.length + 2) * (reSize re + 2) * 2) re t []
    (fun rest caps => some (t.take (t.length - rest.length), caps))

/-- Leftmost search: try each start position in order, as JavaScript
`String.prototype.match` does for a non-global regex. -/
def reSearch : Re → List Char → Option MRes
  | re, [] => matchAt re []
  | re, c :: r =>
    match matchAt re (c :: r) with
    | some m => some m
    | none => reSearch re r

/-- `ConfigService.readVersionFromFile` (configService.ts, lines
719–774) with the file read abstracted to its content (`none` = file
missing or unreadable, which the source turns into `null`): match the
pattern against the content; if capture group 1 is present and
non-empty return it trimmed, else if the whole match is non-empty
return it trimmed, else `null`; an unusable pattern also yields
`null`. -/
def readVersionFromFile (content : Option String) (versionRegex : String) : Option String :=
  match content with
  | none => none
  | some text =>
    match parseRegex versionRegex with
    | none => none
    | some re =>
      match reSearch re text.data with
      | none => none
      | some (full, caps) =>
        match (caps.find? (fun pr => pr.1 == 1)).map (fun pr => pr.2) with
        | some g1 =>
          if g1.isEmpty then
            if full.isEmpty then none else some (String.mk (trim full))
          else some (String.mk (trim g1))
        | none =>
          if full.isEmpty then none else some (String.mk (trim full))

/-- A sub-project record of a `.gitcommit` file
(`GitCommitProjectConfig`). -/
structure GCProj where
  projectName : String
  path : String
  versionRegex : String
  description : Option String
deriving DecidableEq

/-- A parsed `.gitcommit` file (`GitCommitConfigFile`): either the
single-project fields or a `config` array. -/
structure GCFile where
  projectName : Option String
  path : Option String
  versionRegex : Option String
  description : Option String
  config : Option (List GCProj)
deriving DecidableEq

/-- JavaScript truthiness of an optional string (`undefined` and the
empty string are falsy). -/
def truthyS (s : Option String) : Bool :=
  match s with
  | some v => v != ""
  | none => false

/-- Core of `ConfigService.getProjectConfig` (configService.ts, lines
676–710) on an already-read config file: single-project form requires
truthy `projectName`, `path` and `versionRegex`; multi-project form
looks the name up when one is given and otherwise — or when the lookup
fails — falls back to the first entry of the `config` array. -/
def getProjectConfigOf (cf : GCFile) (pn : Option String) : Option GCProj :=
  match cf.config with
  | none =>
    if truthyS cf.projectName && truthyS cf.path && truthyS cf.versionRegex then
      some ⟨cf.projectName.getD "", cf.path.getD "", cf.versionRegex.getD "", cf.description⟩
    else none
  | some cfgs =>
    match (if truthyS pn then cfgs.find? (fun p => p.projectName == pn.getD "") else none) with
    | some pc => some pc
    | none =>
      match cfgs with
      | p :: _ => some p
      | [] => none

/-- `ConfigService.getProjectConfig` with the file read supplied by an
environment function (`readConfig`, the parsed-or-`null` result). -/
def getProjectConfig (readCfg : String → Option GCFile) (root : String)
    (pn : Option String) : Option GCProj :=
  match readCfg root with
  | none => none
  | some cf => getProjectConfigOf cf pn

/-- Environment for `ConfigService`: `findRoot` models
`findProjectRoot` (upward `.gitcommit` search), `readCfg` the parsed
config at a root, `readFile root rel` the content of the version file
at `path.join(root, rel)`. -/
structure ConfigEnv where
  findRoot : String → Option String
  readCfg : String → Option GCFile
  readFile : String → String → Option String

/-- `ConfigService.getProjectVersion` (configService.ts, lines
782–821): locate the config root, select the project config, and when
it has a truthy `path` and `versionRegex` extract the version from the
target file; an empty extracted version is falsy and yields `null`. -/
def getProjectVersion (env : ConfigEnv) (startPath : String) (pn : Option String) :
    Option String :=
  match env.findRoot startPath with
  | none => none
  | some root =>
    match getProjectConfig env.readCfg root pn with
    | none => none
    | some config =>
      if config.path != "" && config.versionRegex != "" then
        match readVersionFromFile (env.readFile root config.path) config.versionRegex with
        | some version => if version != "" then some version else none
        | none => none
      else none

/-- Git command results consumed by `VersionService.getCurrentVersion`:
raw stdout of `git describe --tags --exact-match HEAD` (`none` = the
command failed, i.e. no exact tag) and of `git rev-parse --short=8
HEAD` (`none` = the command failed). -/
structure GitEnv where
  exactTagRaw : Option String
  shortHashRaw : Option String
deriving DecidableEq

/-- The `configVersion` local of `getCurrentVersion`: the config-file
step runs only when a file path was provided. -/
def configVersionOf (cenv : ConfigEnv) (filePath : Option String) (pn : Option String) :
    Option String :=
  match filePath with
  | some fp => getProjectVersion cenv fp pn
  | none => none

/-- The `tagOutput` local of `getCurrentVersion`: trimmed stdout of the
exact-match describe, or the empty string when the command failed. -/
def tagOutputOf (genv : GitEnv) : String :=
  match genv.exactTagRaw with
  | some o => strTrim o
  | none => ""

/-- `VersionService.getCurrentVersion` (versionService.ts, lines
44–103): return the config-file version when truthy; else the exact
matching tag when its trimmed output is non-empty; else the trimmed
short commit hash; the final `git rev-parse` failing is the only error
case. -/
def getCurrentVersion (cenv : ConfigEnv) (genv : GitEnv) (filePath : Option String)
    (pn : Option String) : Except String String :=
  let configVersion := configVersionOf cenv filePath pn
  if truthyS configVersion then Except.ok (configVersion.getD "")
  else
    let tagOutput := tagOutputOf genv
    if strTrim tagOutput != "" then Except.ok (strTrim tagOutput)
    else
      match genv.shortHashRaw with
      | some h => Except.ok (strTrim h)
      | none => Except.error "获取当前版本号失败"

/-- Git Flow branch roles (`GitFlowBranchType`). -/
inductive GFType where
  | feature : GFType
  | release : GFType
  | hotfix : GFType
  | support : GFType
deriving DecidableEq

/-- Abstract state of the git repository the service shells out to:
per-repository config entries, local branches with their commit
histories (tip first), annotated tags, the checked-out branch, a fresh
commit counter, and whether `git pull` fails in this environment (e.g.
no remote configured). -/
structure RepoState where
  cfg : List (String × String)
  branches : List (String × List Nat)
  tags : List (String × Nat)
  headBranch : String
  nextId : Nat
  pullFails : Bool
deriving DecidableEq

/-- Overwrite-or-append a key in an association list (the behaviour of
`git config key value` for single-valued keys). -/
def setKV (k v : String) : List (String × String) → List (String × String)
  | [] => [(k, v)]
  | (a, b) :: r => if a == k then (k, v) :: r else (a, b) :: setKV k v r

/-- Replace a branch's history. -/
def setBranch (b : String) (h : List Nat) : List (String × List Nat) → List (String × List Nat)
  | [] => [(b, h)]
  | (a, x) :: r => if a == b then (b, h) :: r else (a, x) :: setBranch b h r

/-- `git branch --list` stdout: one line per local branch, the current
one marked with `*`. -/
def branchListOut (st : RepoState) : String :=
  String.intercalate "\n"
    (st.branches.map (fun p => (if p.1 == st.headBranch then "* " else "  ") ++ p.1))

/-- Model of the git CLI commands issued by `GitFlowService` (the
external collaborator the service awaits through `execFile('git',
args)`): returns the command's result and the post-command repository
state.  Read commands leave the state unchanged; `pull` succeeds as a
no-op or fails according to the environment; `merge --no-ff` always
creates a fresh merge commit on the current branch; `branch -d`
requires the branch to be merged into the current branch. -/
def exec (st : RepoState) (args : List String) : Except String String × RepoState :=
  match args with
  | ["config", "--get", k] =>
    match List.lookup k st.cfg with
    | some v => (Except.ok v, st)
    | none => (Except.error "config 键不存在", st)
  | ["config", k, v] => (Except.ok "", { st with cfg := setKV k v st.cfg })
  | ["checkout", "-b", b] =>
    match List.lookup b st.branches with
    | some _ => (Except.error "分支已存在", st)
    | none =>
      match List.lookup st.headBranch st.branches with
      | some h => (Except.ok "", { st with branches := st.branches ++ [(b, h)], headBranch := b })
      | none => (Except.error "当前分支无效", st)
  | ["checkout", b] =>
    match List.lookup b st.branches with
    | some _ => (Except.ok "", { st with headBranch := b })
    | none => (Except.error "分支不存在", st)
  | ["pull", "origin", _] =>
    if st.pullFails then (Except.error "无法连接远程仓库", st) else (Except.ok "", st)
  | ["merge", "--no-ff", b] =>
    match List.lookup b st.branches, List.lookup st.headBranch st.branches with
    | some hb, some hh =>
      (Except.ok "",
       { st with branches := setBranch st.headBranch (st.nextId :: (hh ++ hb)) st.branches,
                 nextId := st.nextId + 1 })
    | _, _ => (Except.error "合并失败", st)
  | ["tag", "-a", t, "-m", _] =>
    match List.lookup t st.tags with
    | some _ => (Except.error "标签已存在", st)
    | none =>
      match List.lookup st.headBranch st.branches with
      | some h => (Except.ok "", { st with tags := (t, h.headD 0) :: st.tags })
      | none => (Except.error "当前分支无效", st)
  | ["branch", "-d", b] =>
    if b == st.headBranch then (Except.error "不能删除当前分支", st)
    else
      match List.lookup b st.branches, List.lookup st.headBranch st.branches with
      | some hb, some hh =>
        if hb.all (fun c => decide (c ∈ hh)) then
          (Except.ok "", { st with branches := st.branches.filter (fun p => p.1 != b) })
        else (Except.error "分支未合并", st)
      | _, _ => (Except.error "分支不存在", st)
  | ["branch", "--list"] => (Except.ok (branchListOut st), st)
  | ["rev-parse", "--abbrev-ref", "HEAD"] => (Except.ok st.headBranch, st)
  | _ => (Except.error "未建模的命令", st)

/-- `GitFlowService.executeGitCommand`: run git, return trimmed stdout,
wrap failures in the service's error message. -/
def executeGitCommand (st : RepoState) (args : List String) :
    Except String String × RepoState :=
  match exec st args with
  | (Except.ok out, st1) => (Except.ok (strTrim out), st1)
  | (Except.error e, st1) => (Except.error ("Git 命令执行失败: " ++ e), st1)

/-- A repository state together with the ordered trace of git commands
issued so far. -/
structure GitRun where
  st : RepoState
  trace : List (List String)
deriving DecidableEq

/-- Issue one git command, recording it in the trace. -/
def runCmd (r : GitRun) (args : List String) : Except String String × GitRun :=
  match executeGitCommand r.st args with
  | (res, st1) => (res, ⟨st1, r.trace ++ [args]⟩)

/-- `GitFlowService.isInitialized` (reads `gitflow.branch.master`; any
failure, including a missing key, yields `false`; an empty value is
also uninitialised). -/
def isInitializedRun (r : GitRun) : Bool × GitRun :=
  match runCmd r ["config", "--get", "gitflow.branch.master"] with
  | (Except.ok v, r1) => (v != "", r1)
  | (Except.error _, r1) => (false, r1)

/-- State-level reading of `isInitialized` (what `isInitializedRun`
computes about a state). -/
def isInitializedB (st : RepoState) : Bool :=
  match List.lookup "gitflow.branch.master" st.cfg with
  | some v => strTrim v != ""
  | none => false

/-- `GitFlowService.startFeature` (lines 194–225): require
initialisation, read the development branch and feature prefix, then
checkout development, best-effort pull, and create the feature
branch. -/
def startFeature (st0 : RepoState) (featureName : String) : Except String Unit × GitRun :=
  let r0 : GitRun := ⟨st0, []⟩
  match isInitializedRun r0 with
  | (false, r) => (Except.error "Git Flow 未初始化，请先初始化 Git Flow", r)
  | (true, r) =>
  match runCmd r ["config", "--get", "gitflow.branch.develop"] with
  | (Except.error e, r) => (Except.error e, r)
  | (Except.ok dB, r) =>
  match runCmd r ["config", "--get", "gitflow.prefix.feature"] with
  | (Except.error e, r) => (Except.error e, r)
  | (Except.ok fP, r) =>
  let branchName := fP ++ featureName
  match runCmd r ["checkout", dB] with
  | (Except.error e, r) => (Except.error ("创建 Feature 分支失败: " ++ e), r)
  | (Except.ok _, r) =>
  let r := (runCmd r ["pull", "origin", dB]).2
  match runCmd r ["checkout", "-b", branchName] with
  | (Except.error e, r) => (Except.error ("创建 Feature 分支失败: " ++ e), r)
  | (Except.ok _, r) => (Except.ok (), r)

/-- `GitFlowService.finishFeature` (lines 230–263): no initialisation
check; read development branch and feature prefix, checkout
development, best-effort pull, `merge --no-ff` the feature branch, and
delete it unless `keepBranch`. -/
def finishFeature (st0 : RepoState) (featureName : String) (keepBranch : Bool) :
    Except String Unit × GitRun :=
  let r0 : GitRun := ⟨st0, []⟩
  match runCmd r0 ["config", "--get", "gitflow.branch.develop"] with
  | (Except.error e, r) => (Except.error e, r)
  | (Except.ok dB, r) =>
  match runCmd r ["config", "--get", "gitflow.prefix.feature"] with
  | (Except.error e, r) => (Except.error e, r)
  | (Except.ok fP, r) =>
  let branchName := fP ++ featureName
  match runCmd r ["checkout", dB] with
  | (Except.error e, r) => (Except.error ("完成 Feature 分支失败: " ++ e), r)
  | (Except.ok _, r) =>
  let r := (runCmd r ["pull", "origin", dB]).2
  match runCmd r ["merge", "--no-ff", branchName] with
  | (Except.error e, r) => (Except.error ("完成 Feature 分支失败: " ++ e), r)
  | (Except.ok _, r) =>
  if keepBranch then (Except.ok (), r)
  else
    match runCmd r ["branch", "-d", branchName] with
    | (Except.error e, r) => (Except.error ("完成 Feature 分支失败: " ++ e), r)
    | (Except.ok _, r) => (Except.ok (), r)

/-- `GitFlowService.startRelease` (lines 268–299): like `startFeature`
with the release prefix. -/
def startRelease (st0 : RepoState) (version : String) : Except String Unit × GitRun :=
  let r0 : GitRun := ⟨st0, []⟩
  match isInitializedRun r0 with
  | (false, r) => (Except.error "Git Flow 未初始化，请先初始化 Git Flow", r)
  | (true, r) =>
  match runCmd r ["config", "--get", "gitflow.branch.develop"] with
  | (Except.error e, r) => (Except.error e, r)
  | (Except.ok dB, r) =>
  match runCmd r ["config", "--get", "gitflow.prefix.release"] with
  | (Except.error e, r) => (Except.error e, r)
  | (Except.ok rP, r) =>
  let branchName := rP ++ version
  match runCmd r ["checkout", dB] with
  | (Except.error e, r) => (Except.error ("创建 Release 分支失败: " ++ e), r)
  | (Except.ok _, r) =>
  let r := (runCmd r ["pull", "origin", dB]).2
  match runCmd r ["checkout", "-b", branchName] with
  | (Except.error e, r) => (Except.error ("创建 Release 分支失败: " ++ e), r)
  | (Except.ok _, r) => (Except.ok (), r)

/-- The tag message of `finishRelease`: the given message, or
`"Release {version}"` when absent or empty (JS `||`). -/
def releaseTagMsg (tagMessage : Option String) (version : String) : String :=
  match tagMessage with
  | some m => if m == "" then "Release " ++ version else m
  | none => "Release " ++ version

/-- The tag message of `finishHotfix`: the given message, or
`"Hotfix {version}"` when absent or empty. -/
def hotfixTagMsg (tagMessage : Option String) (version : String) : String :=
  match tagMessage with
  | some m => if m == "" then "Hotfix " ++ version else m
  | none => "Hotfix " ++ version

/-- `GitFlowService.finishRelease` (lines 304–355): read the four
settings, checkout master, best-effort pull, `merge --no-ff` the
release branch, create the annotated tag, checkout develop, best-effort
pull, merge again, and delete the branch unless `keepBranch`. -/
def finishRelease (st0 : RepoState) (version : String) (keepBranch : Bool)
    (tagMessage : Option String) : Except String Unit × GitRun :=
  let r0 : GitRun := ⟨st0, []⟩
  match runCmd r0 ["config", "--get", "gitflow.branch.master"] with
  | (Except.error e, r) => (Except.error e, r)
  | (Except.ok mB, r) =>
  match runCmd r ["config", "--get", "gitflow.branch.develop"] with
  | (Except.error e, r) => (Except.error e, r)
  | (Except.ok dB, r) =>
  match runCmd r ["config", "--get", "gitflow.prefix.release"] with
  | (Except.error e, r) => (Except.error e, r)
  | (Except.ok rP, r) =>
  match runCmd r ["config", "--get", "gitflow.prefix.versiontag"] with
  | (Except.error e, r) => (Except.error e, r)
  | (Except.ok tP, r) =>
  let branchName := rP ++ version
  let tagName := tP ++ version
  match runCmd r ["checkout", mB] with
  | (Except.error e, r) => (Except.error ("完成 Release 分支失败: " ++ e), r)
  | (Except.ok _, r) =>
  let r := (runCmd r ["pull", "origin", mB]).2
  match runCmd r ["merge", "--no-ff", branchName] with
  | (Except.error e, r) => (Except.error ("完成 Release 分支失败: " ++ e), r)
  | (Except.ok _, r) =>
  match runCmd r ["tag", "-a", tagName, "-m", releaseTagMsg tagMessage version] with
  | (Except.error e, r) => (Except.error ("完成 Release 分支失败: " ++ e), r)
  | (Except.ok _, r) =>
  match runCmd r ["checkout", dB] with
  | (Except.error e, r) => (Except.error ("完成 Release 分支失败: " ++ e), r)
  | (Except.ok _, r) =>
  let r := (runCmd r ["pull", "origin", dB]).2
  match runCmd r ["merge", "--no-ff", branchName] with
  | (Except.error e, r) => (Except.error ("完成 Release 分支失败: " ++ e), r)
  | (Except.ok _, r) =>
  if keepBranch then (Except.ok (), r)
  else
    match runCmd r ["branch", "-d", branchName] with
    | (Except.error e, r) => (Except.error ("完成 Release 分支失败: " ++ e), r)
    | (Except.ok _, r) => (Except.ok (), r)

/-- `GitFlowService.startHotfix` (lines 360–391): require
initialisation, read master branch and hotfix prefix, then checkout
master, best-effort pull, and create the hotfix branch. -/
def startHotfix (st0 : RepoState) (version : String) : Except String Unit × GitRun :=
  let r0 : GitRun := ⟨st0, []⟩
  match isInitializedRun r0 with
  | (false, r) => (Except.error "Git Flow 未初始化，请先初始化 Git Flow", r)
  | (true, r) =>
  match runCmd r ["config", "--get", "gitflow.branch.master"] with
  | (Except.error e, r) => (Except.error e, r)
  | (Except.ok mB, r) =>
  match runCmd r ["config", "--get", "gitflow.prefix.hotfix"] with
  | (Except.error e, r) => (Except.error e, r)
  | (Except.ok hP, r) =>
  let branchName := hP ++ version
  match runCmd r ["checkout", mB] with
  | (Except.error e, r) => (Except.error ("创建 Hotfix 分支失败: " ++ e), r)
  | (Except.ok _, r) =>
  let r := (runCmd r ["pull", "origin", mB]).2
  match runCmd r ["checkout", "-b", branchName] with
  | (Except.error e, r) => (Except.error ("创建 Hotfix 分支失败: " ++ e), r)
  | (Except.ok _, r) => (Except.ok (), r)

/-- `GitFlowService.finishHotfix` (lines 396–447): like
`finishRelease` with the hotfix prefix and the `Hotfix` default tag
message. -/
def finishHotfix (st0 : RepoState) (version : String) (keepBranch : Bool)
    (tagMessage : Option String) : Except String Unit × GitRun :=
  let r0 : GitRun := ⟨st0, []⟩
  match runCmd r0 ["config", "--get", "gitflow.branch.master"] with
  | (Except.error e, r) => (Except.error e, r)
  | (Except.ok mB, r) =>
  match runCmd r ["config", "--get", "gitflow.branch.develop"] with
  | (Except.error e, r) => (Except.error e, r)
  | (Except.ok dB, r) =>
  match runCmd r ["config", "--get", "gitflow.prefix.hotfix"] with
  | (Except.error e, r) => (Except.error e, r)
  | (Except.ok hP, r) =>
  match runCmd r ["config", "--get", "gitflow.prefix.versiontag"] with
  | (Except.error e, r) => (Except.error e, r)
  | (Except.ok tP, r) =>
  let branchName := hP ++ version
  let tagName := tP ++ version
  match runCmd r ["checkout", mB] with
  | (Except.error e, r) => (Except.error ("完成 Hotfix 分支失败: " ++ e), r)
  | (Except.ok _, r) =>
  let r := (runCmd r ["pull", "origin", mB]).2
  match runCmd r ["merge", "--no-ff", branchName] with
  | (Except.error e, r) => (Except.error ("完成 Hotfix 分支失败: " ++ e), r)
  | (Except.ok _, r) =>
  match runCmd r ["tag", "-a", tagName, "-m", hotfixTagMsg tagMessage version] with
  | (Except.error e, r) => (Except.error ("完成 Hotfix 分支失败: " ++ e), r)
  | (Except.ok _, r) =>
  match runCmd r ["checkout", dB] with
  | (Except.error e, r) => (Except.error ("完成 Hotfix 分支失败: " ++ e), r)
  | (Except.ok _, r) =>
  let r := (runCmd r ["pull", "origin", dB]).2
  match runCmd r ["merge", "--no-ff", branchName] with
  | (Except.error e, r) => (Except.error ("完成 Hotfix 分支失败: " ++ e), r)
  | (Except.ok _, r) =>
  if keepBranch then (Except.ok (), r)
  else
    match runCmd r ["branch", "-d", branchName] with
    | (Except.error e, r) => (Except.error ("完成 Hotfix 分支失败: " ++ e), r)
    | (Except.ok _, r) => (Except.ok (), r)

/-- The partial configuration accepted by `GitFlowService.init`
(`Partial<GitFlowConfig>`). -/
structure GFPartial where
  masterBranch : Option String
  developBranch : Option String
  featP : Option String
  relP : Option String
  hotP : Option String
  supP : Option String
  tagP : Option String
deriving DecidableEq

/-- The merged configuration (`{...DEFAULT_CONFIG, ...config}`). -/
structure GFConfig where
  masterBranch : String
  developBranch : String
  featP : String
  relP : String
  hotP : String
  supP : String
  tagP : String
deriving DecidableEq

/-- Merge a partial configuration with `DEFAULT_CONFIG`. -/
def mergeCfg (c : GFPartial) : GFConfig :=
  ⟨c.masterBranch.getD "master", c.developBranch.getD "develop",
   c.featP.getD "feature/", c.relP.getD "release/", c.hotP.getD "hotfix/",
   c.supP.getD "support/", c.tagP.getD ""⟩

/-- `GitFlowService.init` (lines 157–189): write the seven
`gitflow.*` settings, then list branches and create the development
branch from the current HEAD when the listing does not contain it
(the source checks `branches.includes(developBranch)`, a substring
test on the whole listing output). -/
def initGitFlow (st0 : RepoState) (c : GFPartial) : Except String GFConfig × GitRun :=
  let fc := mergeCfg c
  let r0 : GitRun := ⟨st0, []⟩
  match runCmd r0 ["config", "gitflow.branch.master", fc.masterBranch] with
  | (Except.error e, r) => (Except.error ("Git Flow 初始化失败: " ++ e), r)
  | (Except.ok _, r) =>
  match runCmd r ["config", "gitflow.branch.develop", fc.developBranch] with
  | (Except.error e, r) => (Except.error ("Git Flow 初始化失败: " ++ e), r)
  | (Except.ok _, r) =>
  match runCmd r ["config", "gitflow.prefix.feature", fc.featP] with
  | (Except.error e, r) => (Except.error ("Git Flow 初始化失败: " ++ e), r)
  | (Except.ok _, r) =>
  match runCmd r ["config", "gitflow.prefix.release", fc.relP] with
  | (Except.error e, r) => (Except.error ("Git Flow 初始化失败: " ++ e), r)
  | (Except.ok _, r) =>
  match runCmd r ["config", "gitflow.prefix.hotfix", fc.hotP] with
  | (Except.error e, r) => (Except.error ("Git Flow 初始化失败: " ++ e), r)
  | (Except.ok _, r) =>
  match runCmd r ["config", "gitflow.prefix.support", fc.supP] with
  | (Except.error e, r) => (Except.error ("Git Flow 初始化失败: " ++ e), r)
  | (Except.ok _, r) =>
  match runCmd r ["config", "gitflow.prefix.versiontag", fc.tagP] with
  | (Except.error e, r) => (Except.error ("Git Flow 初始化失败: " ++ e), r)
  | (Except.ok _, r) =>
  match runCmd r ["branch", "--list"] with
  | (Except.error e, r) => (Except.error ("Git Flow 初始化失败: " ++ e), r)
  | (Except.ok branches, r) =>
  if occurs fc.developBranch.data branches.data then (Except.ok fc, r)
  else
    match runCmd r ["checkout", "-b", fc.developBranch] with
    | (Except.error e, r) => (Except.error ("Git Flow 初始化失败: " ++ e), r)
    | (Except.ok _, r) => (Except.ok fc, r)

/-- `startsWith` test used by `getCurrentBranchType`. -/
def strStarts (s p : String) : Bool := p.data.isPrefixOf s.data

/-- A `config --get` with a `.catch` fallback to a default value. -/
def cfgOrDefault (r : GitRun) (key dft : String) : String × GitRun :=
  match runCmd r ["config", "--get", key] with
  | (Except.ok v, r1) => (v, r1)
  | (Except.error _, r1) => (dft, r1)

/-- `GitFlowService.getCurrentBranchType` (lines 452–480): read the
current branch, resolve the four prefixes with defaults on failure, and
return the first of feature, release, hotfix, support whose prefix
starts the branch name, else `none`. -/
def getCurrentBranchType (st0 : RepoState) : Option GFType × GitRun :=
  let r0 : GitRun := ⟨st0, []⟩
  match runCmd r0 ["rev-parse", "--abbrev-ref", "HEAD"] with
  | (Except.error _, r) => (none, r)
  | (Except.ok cur, r) =>
    let fp := cfgOrDefault r "gitflow.prefix.feature" "feature/"
    let rp := cfgOrDefault fp.2 "gitflow.prefix.release" "release/"
    let hp := cfgOrDefault rp.2 "gitflow.prefix.hotfix" "hotfix/"
    let sp := cfgOrDefault hp.2 "gitflow.prefix.support" "support/"
    if strStarts cur fp.1 then (some GFType.feature, sp.2)
    else if strStarts cur rp.1 then (some GFType.release, sp.2)
    else if strStarts cur hp.1 then (some GFType.hotfix, sp.2)
    else if strStarts cur sp.1 then (some GFType.support, sp.2)
    else (none, sp.2)

/-- The seven repository settings written by an initialisation with the
default configuration. -/
def stdCfg : List (String × String) :=
  [("gitflow.branch.master", "master"),
   ("gitflow.branch.develop", "develop"),
   ("gitflow.prefix.feature", "feature/"),
   ("gitflow.prefix.release", "release/"),
   ("gitflow.prefix.hotfix", "hotfix/"),
   ("gitflow.prefix.support", "support/"),
   ("gitflow.prefix.versiontag", "")]

/-! ## Concrete instances used by counterexamples and witnesses -/

/-- Field set whose `body` value is itself a placeholder token. -/
def cfgBodyIcon : GitCommitMessage :=
  ⟨[], "<body>".data, [], [], [], [], "<icon>".data, []⟩

/-- Template in which deleting the `<icon>` occurrence fuses the
surrounding text into a new `<icon>` token; all fields empty. -/
def cfgFusion : GitCommitMessage :=
  ⟨[], "<ic<icon>on>".data, [], [], [], [], [], []⟩

/-- Field set used by the idempotence counterexample: template
`<body>` with body value `<icon>`. -/
def cfgIdemCex : GitCommitMessage :=
  ⟨[], "<body>".data, [], [], [], [], "<icon>".data, []⟩

/-- Well-formed witness input for the no-residual-placeholder theorem. -/
def cfgRenderWit : GitCommitMessage :=
  ⟨[], "<type>(<scope>): <subject>".data, [], "feat".data, "auth".data,
   "add login".data, [], []⟩

/-- Well-formed witness input for the idempotence theorem. -/
def cfgIdemWit : GitCommitMessage :=
  ⟨[], "<icon> <type>: <subject><enter><body>".data, "✨".data, "fix".data, [],
   "typo".data, "details".data, []⟩

/-- Version-extraction pattern used throughout the examples (the
`versionRegex` from the spec and the generated config template). -/
def verPat : String := "\"version\"\\s*:\\s*\"([\\d.]+)\""

/-- A `package.json`-style content carrying version 1.2.3. -/
def verContent : String := "\x7b\"version\": \"1.2.3\"\x7d"

/-- First project of the multi-project counterexample config. -/
def projAlpha : GCProj := ⟨"alpha", "a/package.json", verPat, none⟩

/-- Second project of the multi-project counterexample config. -/
def projBeta : GCProj := ⟨"beta", "b/package.json", verPat, none⟩

/-- A multi-project `.gitcommit` file with two named projects. -/
def multiCfgFile : GCFile := ⟨none, none, none, none, some [projAlpha, projBeta]⟩

/-- Environment in which the multi-project config is found and the
first project's version file carries 1.2.3. -/
def cenvMulti : ConfigEnv :=
  ⟨fun _ => some "R", fun _ => some multiCfgFile, fun _ _ => some verContent⟩

/-- Git environment with an exact-match tag and a short hash, used to
show the config-file step short-circuits the VCS steps. -/
def genvTagged : GitEnv := ⟨some "v9.9.9\n", some "abcdef12"⟩

/-- Environment with no `.gitcommit` config anywhere. -/
def cenvNone : ConfigEnv := ⟨fun _ => none, fun _ => none, fun _ _ => none⟩

/-- Git environment with no exact-match tag. -/
def genvHashOnly : GitEnv := ⟨none, some "abcdef12\n"⟩

/-- Single-project environment extracting 1.2.3. -/
def cenvSingle : ConfigEnv :=
  ⟨fun _ => some "R",
   fun _ => some ⟨some "app", some "package.json", some verPat, none, none⟩,
   fun _ _ => some verContent⟩

/-- The repository state for the release-finish example: initialised
with the default settings, `master`/`develop`/`release/1.0.0` present,
`develop` checked out. -/
def stRelease : RepoState :=
  ⟨stdCfg, [("master", [0]), ("develop", [1, 0]), ("release/1.0.0", [2, 1, 0])],
   [], "develop", 3, false⟩

/-- Like `stRelease` but with a failing remote (`git pull` errors). -/
def stReleaseP : RepoState :=
  ⟨stdCfg, [("master", [0]), ("develop", [1, 0]), ("release/1.0.0", [2, 1, 0])],
   [], "develop", 3, true⟩

/-- Initialised two-branch state with a failing remote, used for the
start operations. -/
def stStartP : RepoState :=
  ⟨stdCfg, [("master", [0]), ("develop", [1, 0])], [], "master", 2, true⟩

/-- Feature branch ready to finish, failing remote. -/
def stFeatFinP : RepoState :=
  ⟨stdCfg, [("master", [0]), ("develop", [1, 0]), ("feature/login", [2, 1, 0])],
   [], "feature/login", 3, true⟩

/-- Hotfix branch ready to finish, failing remote. -/
def stHotFinP : RepoState :=
  ⟨stdCfg, [("master", [0]), ("develop", [1, 0]), ("hotfix/1.0.1", [2, 0])],
   [], "master", 3, true⟩

/-- Uninitialised repository containing a `development` branch: the
`includes` substring test of `init` mistakes it for `develop`. -/
def stDevelopment : RepoState :=
  ⟨[], [("master", [0]), ("development", [1, 0])], [], "master", 2, false⟩

/-- Uninitialised single-branch repository. -/
def stMasterOnly : RepoState := ⟨[], [("master", [0])], [], "master", 1, false⟩

/-- The empty partial configuration (all defaults). -/
def dfltPartial : GFPartial := ⟨none, none, none, none, none, none, none⟩

/-- A partial configuration overriding the master branch name. -/
def mainPartial : GFPartial := ⟨some "main", none, none, none, none, none, none⟩

/-- Branch-classification example states. -/
def stFeatBr : RepoState := ⟨stdCfg, [("feature/login", [0])], [], "feature/login", 1, false⟩

/-- `feature/login` with no stored settings (prefixes fall back to the
defaults through the catch handlers). -/
def stFeatBrNoCfg : RepoState := ⟨[], [("feature/login", [0])], [], "feature/login", 1, false⟩

/-- `main` does not match any role prefix. -/
def stMainBr : RepoState := ⟨stdCfg, [("main", [0])], [], "main", 1, false⟩

/-- All four configured prefixes match the current branch; priority
must pick `feature`. -/
def stAllMatch : RepoState :=
  ⟨[("gitflow.prefix.feature", "a"), ("gitflow.prefix.release", "ab"),
    ("gitflow.prefix.hotfix", "abc"), ("gitflow.prefix.support", "abcd")],
   [("abcde", [0])], [], "abcde", 1, false⟩

/-- The feature prefix does not match but release, hotfix and support
do; priority must pick `release`. -/
def stRelMatch : RepoState :=
  ⟨[("gitflow.prefix.feature", "zz"), ("gitflow.prefix.release", "a"),
    ("gitflow.prefix.hotfix", "ab"), ("gitflow.prefix.support", "abc")],
   [("abcde", [0])], [], "abcde", 1, false⟩

/-- Only the support prefix matches. -/
def stSupMatch : RepoState :=
  ⟨[("gitflow.prefix.feature", "x/"), ("gitflow.prefix.release", "y/"),
    ("gitflow.prefix.hotfix", "z/"), ("gitflow.prefix.support", "s/")],
   [("s/longterm", [0])], [], "s/longterm", 1, false⟩

/-! ## Utility lemmas about the string model -/

theorem isPrefixOf_cons_eq (a b : Char) (as bs : List Char) :
    (a :: as).isPrefixOf (b :: bs) = (a == b && as.isPrefixOf bs) := rfl

theorem isPrefixOf_iff (a : List Char) : ∀ (b : List Char),
    a.isPrefixOf b = true ↔ ∃ z, b = a ++ z := by
  induction a with
  | nil =>
    intro b
    constructor
    · intro _; exact ⟨b, rfl⟩
    · intro _; cases b <;> rfl
  | cons x xs ih =>
    intro b
    cases b with
    | nil =>
      simp only [List.isPrefixOf]
      constructor
      · intro h; cases h
      · rintro ⟨z, hz⟩; cases hz
    | cons y ys =>
      rw [isPrefixOf_cons_eq]
      constructor
      · intro h
        have h1 : x = y := by
          have := (Bool.and_eq_true _ _).mp h
          exact beq_iff_eq.mp this.1
        have h2 : xs.isPrefixOf ys = true := ((Bool.and_eq_true _ _).mp h).2
        obtain ⟨z, hz⟩ := (ih ys).mp h2
        exact ⟨z, by simp [h1, hz]⟩
      · rintro ⟨z, hz⟩
        have hx : x = y := by
          have := congrArg (fun l => List.head? l) hz
          simpa using this.symm
        have hys : ys = xs ++ z := by
          have := congrArg (fun l => List.tail l) hz
          simpa using this
        apply (Bool.and_eq_true _ _).mpr
        exact ⟨beq_iff_eq.mpr hx, (ih ys).mpr ⟨z, hys⟩⟩

theorem appendComparable (a : List Char) : ∀ (b w z : List Char),
    a ++ w = b ++ z → (∃ u, b = a ++ u) ∨ (∃ u, a = b ++ u) := by
  induction a with
  | nil => intro b w z _; exact Or.inl ⟨b, rfl⟩
  | cons x xs ih =>
    intro b w z h
    cases b with
    | nil => exact Or.inr ⟨x :: xs, rfl⟩
    | cons y ys =>
      have hx : x = y := by
        have := congrArg (fun l => List.head? l) h
        simpa using this
      have ht : xs ++ w = ys ++ z := by
        have := congrArg (fun l => List.tail l) h
        simpa using this
      rcases ih ys w z ht with ⟨u, hu⟩ | ⟨u, hu⟩
      · exact Or.inl ⟨u, by simp [hx, hu]⟩
      · exact Or.inr ⟨u, by simp [hx, hu]⟩

theorem notPreApp {a b : List Char} (z : List Char)
    (h1 : a.isPrefixOf b = false) (h2 : b.isPrefixOf a = false) :
    a.isPrefixOf (b ++ z) = false := by
  by_contra hne
  have h : a.isPrefixOf (b ++ z) = true := by
    cases hh : a.isPrefixOf (b ++ z)
    · exact absurd hh hne
    · rfl
  obtain ⟨u, hu⟩ := (isPrefixOf_iff a (b ++ z)).mp h
  rcases appendComparable a b u z hu.symm with ⟨v, hv⟩ | ⟨v, hv⟩
  · have : a.isPrefixOf b = true := (isPrefixOf_iff a b).mpr ⟨v, hv⟩
    rw [this] at h1; cases h1
  · have : b.isPrefixOf a = true := (isPrefixOf_iff b a).mpr ⟨v, hv⟩
    rw [this] at h2; cases h2

theorem replFuel_fuel (t v : List Char) : ∀ (n m : Nat) (s : List Char),
    s.length ≤ n → s.length ≤ m → replFuel t v n s = replFuel t v m s := by
  intro n
  induction n with
  | zero =>
    intro m s hn _
    have hs : s = [] := List.length_eq_zero.mp (Nat.le_zero.mp hn)
    subst hs
    cases m <;> rfl
  | succ n ih =>
    intro m s hn hm
    cases s with
    | nil => cases m <;> rfl
    | cons c s' =>
      cases m with
      | zero => simp at hm
      | succ m' =>
        simp only [List.length_cons, Nat.succ_le_succ_iff] at hn hm
        show (if t.isPrefixOf (c :: s') && !t.isEmpty then
                v ++ replFuel t v n ((c :: s').drop t.length)
              else c :: replFuel t v n s') =
             (if t.isPrefixOf (c :: s') && !t.isEmpty then
                v ++ replFuel t v m' ((c :: s').drop t.length)
              else c :: replFuel t v m' s')
        by_cases hg : (t.isPrefixOf (c :: s') && !t.isEmpty) = true
        · rw [hg]
          simp only [if_true]
          congr 1
          have hne : t ≠ [] := by
            intro habs
            rw [habs] at hg
            simp [List.isEmpty] at hg
          have hlen : 1 ≤ t.length := by
            cases t with
            | nil => exact absurd rfl hne
            | cons _ _ => simp
          have hd : ((c :: s').drop t.length).length ≤ n := by
            rw [List.length_drop]
            simp only [List.length_cons]
            omega
          have hd2 : ((c :: s').drop t.length).length ≤ m' := by
            rw [List.length_drop]
            simp only [List.length_cons]
            omega
          exact ih m' _ hd hd2
        · rw [Bool.not_eq_true] at hg
          rw [hg]
          simp only [if_false, Bool.false_eq_true]
          congr 1
          exact ih m' s' hn hm

theorem replaceAll_nil (t v : List Char) : replaceAll t v [] = [] := rfl

theorem replaceAll_cons_pos {t : List Char} (v : List Char) {c : Char} {s : List Char}
    (h : (t.isPrefixOf (c :: s) && !t.isEmpty) = true) :
    replaceAll t v (c :: s) = v ++ replaceAll t v ((c :: s).drop t.length) := by
  show replFuel t v (s.length + 1) (c :: s) = _
  show (if t.isPrefixOf (c :: s) && !t.isEmpty then
          v ++ replFuel t v s.length ((c :: s).drop t.length)
        else c :: replFuel t v s.length s) = _
  rw [h]
  simp only [if_true]
  congr 1
  have hne : t ≠ [] := by
    intro habs; rw [habs] at h; simp [List.isEmpty] at h
  have hlen : 1 ≤ t.length := by
    cases t with
    | nil => exact absurd rfl hne
    | cons _ _ => simp
  apply replFuel_fuel
  · rw [List.length_drop]; simp only [List.length_cons]; omega
  · exact Nat.le_refl _

theorem replaceAll_cons_neg {t : List Char} (v : List Char) {c : Char} {s : List Char}
    (h : (t.isPrefixOf (c :: s) && !t.isEmpty) = false) :
    replaceAll t v (c :: s) = c :: replaceAll t v s := by
  show (if t.isPrefixOf (c :: s) && !t.isEmpty then
          v ++ replFuel t v s.length ((c :: s).drop t.length)
        else c :: replFuel t v s.length s) = _
  rw [h]
  simp only [if_false, Bool.false_eq_true]
  rfl

theorem tokenShaped_eq {t : List Char} (h : tokenShaped t = true) :
    ∃ r, t = '<' :: r ∧ ∀ c ∈ r, c ≠ '<' := by
  cases t with
  | nil => simp [tokenShaped] at h
  | cons a r =>
    simp only [tokenShaped, Bool.and_eq_true, beq_iff_eq, List.all_eq_true,
      decide_eq_true_eq] at h
    exact ⟨r, by simp [h.1], h.2⟩

theorem replaceAll_skip {t : List Char} (v : List Char) (ht : tokenShaped t = true) :
    ∀ (p s : List Char), (∀ c ∈ p, c ≠ '<') →
    replaceAll t v (p ++ s) = p ++ replaceAll t v s := by
  intro p
  induction p with
  | nil => intro s _; rfl
  | cons c p' ih =>
    intro s hp
    obtain ⟨r, hr, _⟩ := tokenShaped_eq ht
    have hc : c ≠ '<' := hp c (by simp)
    have hguard : (t.isPrefixOf (c :: (p' ++ s)) && !t.isEmpty) = false := by
      rw [hr, isPrefixOf_cons_eq]
      have : ('<' == c) = false := by
        rw [beq_eq_false_iff_ne]
        exact fun habs => hc habs.symm
      simp [this]
    rw [List.cons_append, replaceAll_cons_neg v hguard, ih s (fun x hx => hp x (by simp [hx]))]
    rfl

theorem replaceAll_id {t : List Char} (v : List Char) (ht : tokenShaped t = true)
    {s : List Char} (hs : ∀ c ∈ s, c ≠ '<') : replaceAll t v s = s := by
  have h1 := replaceAll_skip v ht s [] hs
  rw [List.append_nil] at h1
  rw [h1, replaceAll_nil, List.append_nil]

theorem isPrefixOf_self_append (a z : List Char) : a.isPrefixOf (a ++ z) = true :=
  (isPrefixOf_iff a (a ++ z)).mpr ⟨z, rfl⟩

theorem replaceAll_token_self {t : List Char} (v : List Char) (ht : tokenShaped t = true)
    (s : List Char) : replaceAll t v (t ++ s) = v ++ replaceAll t v s := by
  obtain ⟨r, hr, _⟩ := tokenShaped_eq ht
  subst hr
  have hguard : (('<' :: r).isPrefixOf (('<' :: r) ++ s) && !('<' :: r).isEmpty) = true := by
    rw [isPrefixOf_self_append]
    rfl
  rw [List.cons_append] at hguard
  rw [List.cons_append, replaceAll_cons_pos v hguard, ← List.cons_append, List.drop_left]

theorem tokStr_append_chars {T : List (List Char)} {v x : List Char}
    (hv : ∀ c ∈ v, c ≠ '<') (hx : TokStr T x) : TokStr T (v ++ x) := by
  induction v with
  | nil => exact hx
  | cons c v' ih =>
    exact TokStr.chr c _ (hv c (by simp)) (ih (fun a ha => hv a (by simp [ha])))

theorem tokStr_replaceAll (T T' : List (List Char)) (t v : List Char)
    (ht : tokenShaped t = true)
    (hT : ∀ u ∈ T, tokenShaped u = true)
    (hmove : ∀ u ∈ T, u = t ∨ (u ∈ T' ∧ t.isPrefixOf u = false ∧ u.isPrefixOf t = false))
    (hv : ∀ c ∈ v, c ≠ '<')
    {s : List Char} (hs : TokStr T s) : TokStr T' (replaceAll t v s) := by
  induction hs with
  | nil => rw [replaceAll_nil]; exact TokStr.nil
  | chr c s1 hc _ ih =>
    obtain ⟨r, hr, _⟩ := tokenShaped_eq ht
    have hguard : (t.isPrefixOf (c :: s1) && !t.isEmpty) = false := by
      rw [hr, isPrefixOf_cons_eq]
      have : ('<' == c) = false := by
        rw [beq_eq_false_iff_ne]
        exact fun habs => hc habs.symm
      simp [this]
    rw [replaceAll_cons_neg v hguard]
    exact TokStr.chr c _ hc ih
  | tok u s1 hu _ ih =>
    rcases hmove u hu with heq | ⟨hu', hp1, hp2⟩
    · subst heq
      rw [replaceAll_token_self v ht s1]
      exact tokStr_append_chars hv ih
    · obtain ⟨r, hr, hrfree⟩ := tokenShaped_eq (hT u hu)
      have hnp : t.isPrefixOf (u ++ s1) = false := notPreApp s1 hp1 hp2
      have hguard : (t.isPrefixOf ('<' :: (r ++ s1)) && !t.isEmpty) = false := by
        rw [← List.cons_append, ← hr, hnp]
        rfl
      rw [hr, List.cons_append, replaceAll_cons_neg v hguard,
        replaceAll_skip v ht r s1 hrfree, ← List.cons_append, ← hr]
      exact TokStr.tok u _ hu' ih

theorem tokStr_nil_no_lt {s : List Char} (hs : TokStr [] s) : ∀ c ∈ s, c ≠ '<' := by
  induction hs with
  | nil => intro c hc; cases hc
  | chr c s1 hc _ ih =>
    intro a ha
    rcases List.mem_cons.mp ha with h | h
    · rw [h]; exact hc
    · exact ih a h
  | tok u s1 hu _ _ => cases hu

theorem dropWhile_head_false {p : Char → Bool} : ∀ {l : List Char} {c : Char},
    (List.dropWhile p l).head? = some c → p c = false := by
  intro l
  induction l with
  | nil => intro c h; cases h
  | cons a l' ih =>
    intro c h
    by_cases ha : p a = true
    · rw [List.dropWhile_cons_of_pos ha] at h
      exact ih h
    · rw [Bool.not_eq_true] at ha
      rw [List.dropWhile_cons_of_neg (by simp [ha])] at h
      simp only [List.head?_cons, Option.some.injEq] at h
      rw [← h]
      exact ha

theorem dropWhile_eq_self {p : Char → Bool} {l : List Char}
    (h : ∀ c, l.head? = some c → p c = false) : List.dropWhile p l = l := by
  cases l with
  | nil => rfl
  | cons a l' =>
    have := h a rfl
    rw [List.dropWhile_cons_of_neg (by simp [this])]

theorem dropWhile_idem (p : Char → Bool) (l : List Char) :
    List.dropWhile p (List.dropWhile p l) = List.dropWhile p l :=
  dropWhile_eq_self (fun _ hc => dropWhile_head_false hc)

theorem head?_append_left {l : List Char} (m : List Char) (h : l ≠ []) :
    (l ++ m).head? = l.head? := by
  cases l with
  | nil => exact absurd rfl h
  | cons a l' => rfl

theorem trim_head_false (s : List Char) :
    ∀ c, (trim s).head? = some c → isWS c = false := by
  intro c hc
  have hsplit : (s.dropWhile isWS).reverse =
      List.takeWhile isWS (s.dropWhile isWS).reverse ++
        List.dropWhile isWS (s.dropWhile isWS).reverse :=
    (List.takeWhile_append_dropWhile isWS (s.dropWhile isWS).reverse).symm
  have haeq : s.dropWhile isWS =
      (List.dropWhile isWS (s.dropWhile isWS).reverse).reverse ++
        (List.takeWhile isWS (s.dropWhile isWS).reverse).reverse := by
    have h3 := congrArg List.reverse hsplit
    rw [List.reverse_reverse, List.reverse_append] at h3
    exact h3
  have hc' : ((List.dropWhile isWS (s.dropWhile isWS).reverse).reverse).head? = some c := hc
  have hne : (List.dropWhile isWS (s.dropWhile isWS).reverse).reverse ≠ [] := by
    intro h0
    rw [h0] at hc'
    cases hc'
  have hha : (s.dropWhile isWS).head? = some c := by
    rw [haeq, head?_append_left _ hne]
    exact hc'
  exact dropWhile_head_false hha

theorem trim_rev_eq (s : List Char) :
    (trim s).reverse = List.dropWhile isWS (s.dropWhile isWS).reverse := by
  unfold trim
  rw [List.reverse_reverse]

theorem trim_idem (s : List Char) : trim (trim s) = trim s := by
  have step1 : trim (trim s) =
      (((trim s).dropWhile isWS).reverse.dropWhile isWS).reverse := rfl
  rw [step1, dropWhile_eq_self (trim_head_false s), trim_rev_eq s, dropWhile_idem]
  rfl

theorem mem_dropWhile {p : Char → Bool} {c : Char} {l : List Char}
    (h : c ∈ List.dropWhile p l) : c ∈ l := by
  have hsplit : l = l.takeWhile p ++ l.dropWhile p :=
    (List.takeWhile_append_dropWhile p l).symm
  rw [hsplit]
  exact List.mem_append_right _ h

theorem mem_trim {c : Char} {s : List Char} (h : c ∈ trim s) : c ∈ s := by
  unfold trim at h
  rw [List.mem_reverse] at h
  have h1 := mem_dropWhile h
  rw [List.mem_reverse] at h1
  exact mem_dropWhile h1

theorem occurs_true_mem {pat : List Char} : ∀ {s : List Char},
    occurs pat s = true → ∀ c ∈ pat, c ∈ s := by
  intro s
  induction s with
  | nil =>
    intro h c hc
    simp only [occurs, List.isEmpty_iff] at h
    subst h
    cases hc
  | cons a s' ih =>
    intro h c hc
    simp only [occurs, Bool.or_eq_true] at h
    rcases h with h | h
    · obtain ⟨z, hz⟩ := (isPrefixOf_iff pat (a :: s')).mp h
      rw [hz]
      exact List.mem_append_left _ hc
    · exact List.mem_cons_of_mem a (ih h c hc)

theorem tokStrBF_sound : ∀ (n : Nat) (T : List (List Char)) (s : List Char),
    tokStrBF n T s = true → TokStr T s := by
  intro n
  induction n with
  | zero => intro T s h; cases h
  | succ n ih =>
    intro T s h
    cases s with
    | nil => exact TokStr.nil
    | cons c rest =>
      simp only [tokStrBF] at h
      cases hf : List.find? (fun t => !t.isEmpty && t.isPrefixOf (c :: rest)) T with
      | none =>
        rw [hf] at h
        simp only [Bool.and_eq_true, decide_eq_true_eq] at h
        exact TokStr.chr c rest h.1 (ih T rest h.2)
      | some t =>
        rw [hf] at h
        have hp := List.find?_some hf
        have hmem := List.mem_of_find?_eq_some hf
        simp only [Bool.and_eq_true, Bool.not_eq_true'] at hp
        obtain ⟨z, hz⟩ := (isPrefixOf_iff t (c :: rest)).mp hp.2
        have hdrop : (c :: rest).drop t.length = z := by
          rw [hz, List.drop_left]
        rw [hz]
        apply TokStr.tok t z hmem
        apply ih
        rw [← hdrop]
        exact h

theorem tokStrB_sound {T : List (List Char)} {s : List Char}
    (h : tokStrB T s = true) : TokStr T s :=
  tokStrBF_sound _ T s h

/-! ## Renderer theorems -/

theorem tokStr_ite_replaceAll (T T' : List (List Char)) (t : List Char) (b : Bool)
    (v1 v2 : List Char)
    (ht : tokenShaped t = true)
    (hT : ∀ u ∈ T, tokenShaped u = true)
    (hmove : ∀ u ∈ T, u = t ∨ (u ∈ T' ∧ t.isPrefixOf u = false ∧ u.isPrefixOf t = false))
    (hv1 : ∀ c ∈ v1, c ≠ '<') (hv2 : ∀ c ∈ v2, c ≠ '<')
    {s : List Char} (hs : TokStr T s) :
    TokStr T' (if b then replaceAll t v1 s else replaceAll t v2 s) := by
  cases b with
  | false =>
    simp only [Bool.false_eq_true, if_false]
    exact tokStr_replaceAll T T' t v2 ht hT hmove hv2 hs
  | true =>
    simp only [if_true]
    exact tokStr_replaceAll T T' t v1 ht hT hmove hv1 hs

theorem substPasses_tokStr (emoji : Bool) (cfg : GitCommitMessage)
    (ht : TokStr placeholderToks cfg.templateContent)
    (hv : ∀ v ∈ [cfg.icon, cfg.type, cfg.scope, cfg.subject, cfg.body, cfg.footer],
      ∀ c ∈ v, c ≠ '<') :
    TokStr [] (substPasses emoji cfg) := by
  unfold substPasses
  apply tokStr_replaceAll [spcT] [] spcT [' '] (by decide) (by decide) (by decide) (by decide)
  apply tokStr_replaceAll [entT, spcT] [spcT] entT ['\n', '\n'] (by decide) (by decide)
    (by decide) (by decide)
  apply tokStr_ite_replaceAll [footT, entT, spcT] [entT, spcT] footT cfg.footer.isEmpty
    [] cfg.footer (by decide) (by decide) (by decide) (by intro c hc; cases hc)
    (hv cfg.footer (by simp))
  apply tokStr_ite_replaceAll [bodyT, footT, entT, spcT] [footT, entT, spcT] bodyT
    cfg.body.isEmpty [] cfg.body (by decide) (by decide) (by decide)
    (by intro c hc; cases hc) (hv cfg.body (by simp))
  apply tokStr_ite_replaceAll [subjT, bodyT, footT, entT, spcT] [bodyT, footT, entT, spcT]
    subjT cfg.subject.isEmpty [] cfg.subject (by decide) (by decide) (by decide)
    (by intro c hc; cases hc) (hv cfg.subject (by simp))
  apply tokStr_ite_replaceAll [scopeT, subjT, bodyT, footT, entT, spcT]
    [subjT, bodyT, footT, entT, spcT] scopeT cfg.scope.isEmpty [] cfg.scope (by decide)
    (by decide) (by decide) (by intro c hc; cases hc) (hv cfg.scope (by simp))
  apply tokStr_ite_replaceAll [typeT, scopeT, subjT, bodyT, footT, entT, spcT]
    [scopeT, subjT, bodyT, footT, entT, spcT] typeT cfg.type.isEmpty [] cfg.type (by decide)
    (by decide) (by decide) (by intro c hc; cases hc) (hv cfg.type (by simp))
  apply tokStr_ite_replaceAll placeholderToks [typeT, scopeT, subjT, bodyT, footT, entT, spcT]
    iconT emoji cfg.icon [] (by decide) (by decide) (by decide) (hv cfg.icon (by simp))
    (by intro c hc; cases hc)
  exact ht

theorem messageCombine_no_lt (emoji : Bool) (cfg : GitCommitMessage)
    (ht : TokStr placeholderToks cfg.templateContent)
    (hv : ∀ v ∈ [cfg.icon, cfg.type, cfg.scope, cfg.subject, cfg.body, cfg.footer],
      ∀ c ∈ v, c ≠ '<') :
    ∀ c ∈ messageCombine emoji cfg, c ≠ '<' := by
  intro c hc
  have hc' : c ∈ trim (substPasses emoji cfg) := hc
  exact tokStr_nil_no_lt (substPasses_tokStr emoji cfg ht hv) c (mem_trim hc')

theorem ite_replaceAll_id (b : Bool) {t : List Char} (v1 v2 : List Char)
    (ht : tokenShaped t = true) {s : List Char} (hs : ∀ c ∈ s, c ≠ '<') :
    (if b then replaceAll t v1 s else replaceAll t v2 s) = s := by
  cases b with
  | false =>
    simp only [Bool.false_eq_true, if_false]
    exact replaceAll_id v2 ht hs
  | true =>
    simp only [if_true]
    exact replaceAll_id v1 ht hs

theorem substPasses_id (emoji : Bool) (cfg : GitCommitMessage) (s : List Char)
    (hs : ∀ c ∈ s, c ≠ '<') :
    substPasses emoji { cfg with templateContent := s } = s := by
  simp only [substPasses]
  rw [ite_replaceAll_id emoji cfg.icon [] (by decide) hs,
    ite_replaceAll_id cfg.type.isEmpty [] cfg.type (by decide) hs,
    ite_replaceAll_id cfg.scope.isEmpty [] cfg.scope (by decide) hs,
    ite_replaceAll_id cfg.subject.isEmpty [] cfg.subject (by decide) hs,
    ite_replaceAll_id cfg.body.isEmpty [] cfg.body (by decide) hs,
    ite_replaceAll_id cfg.footer.isEmpty [] cfg.footer (by decide) hs,
    replaceAll_id ['\n', '\n'] (by decide) hs,
    replaceAll_id [' '] (by decide) hs]

/-- C4 counterexample: the claim "for every template string and every
commit field set the rendered message contains no literal placeholder
token" is false on the code.  With template `<body>` and body value
`<icon>` the output is exactly `<icon>` (the body value is substituted
after the icon pass, so the token survives); and even with all fields
empty, the template `<ic<icon>on>` renders to `<icon>` because deleting
the inner `<icon>` fuses the surrounding text into a new token. -/
theorem messageCombine_residual_cex :
    messageCombine true cfgBodyIcon = iconT ∧
    occurs iconT (messageCombine true cfgBodyIcon) = true ∧
    messageCombine true cfgFusion = iconT ∧
    occurs iconT (messageCombine true cfgFusion) = true := by
  decide

/-- C4 (amended): for every template that is a concatenation of
placeholder tokens and `'<'`-free literal text, and every field set
whose values contain neither `'<'` nor `'$'`, the rendered commit
message contains no literal placeholder token (`<icon>`, `<type>`,
`<scope>`, `<subject>`, `<body>`, `<footer>`, `<enter>`, `<space>`). -/
theorem messageCombine_no_residual_placeholder (emoji : Bool) (cfg : GitCommitMessage)
    (ht : TokStr placeholderToks cfg.templateContent)
    (hv : ∀ v ∈ [cfg.icon, cfg.type, cfg.scope, cfg.subject, cfg.body, cfg.footer],
      ∀ c ∈ v, c ≠ '<' ∧ c ≠ '$') :
    ∀ u ∈ placeholderToks, occurs u (messageCombine emoji cfg) = false := by
  intro u hu
  have hv' : ∀ v ∈ [cfg.icon, cfg.type, cfg.scope, cfg.subject, cfg.body, cfg.footer],
      ∀ c ∈ v, c ≠ '<' := fun v hvm c hc => (hv v hvm c hc).1
  have hlt := messageCombine_no_lt emoji cfg ht hv'
  cases hocc : occurs u (messageCombine emoji cfg) with
  | false => rfl
  | true =>
    have hltu : ∀ w ∈ placeholderToks, '<' ∈ w := by decide
    have hmem : '<' ∈ messageCombine emoji cfg := occurs_true_mem hocc '<' (hltu u hu)
    exact absurd rfl (hlt '<' hmem)

/-- C4 witness: a concrete well-formed template and field set rendered
with no residual placeholder. -/
theorem messageCombine_no_residual_placeholder_wit :
    occurs subjT (messageCombine true cfgRenderWit) = false :=
  messageCombine_no_residual_placeholder true cfgRenderWit (tokStrB_sound (by decide))
    (by decide) subjT (by decide)

/-- C5 counterexample: re-applying the substitution pass to the
renderer's own output can change it, so rendering is not idempotent in
general.  Template `<body>` with body value `<icon>` renders to
`<icon>`; feeding that output back as the template yields the empty
string (the residual token is substituted away on the second pass). -/
theorem messageCombine_idem_cex :
    messageCombine true
        { cfgIdemCex with templateContent := messageCombine true cfgIdemCex } ≠
      messageCombine true cfgIdemCex := by
  decide

/-- C5 (amended): for every template that is a concatenation of
placeholder tokens and `'<'`-free literal text, and every field set
whose values contain neither `'<'` nor `'$'`, rendering is idempotent:
re-applying the renderer's substitution pass to its own output leaves
the text unchanged, because no residual placeholders remain. -/
theorem messageCombine_idem (emoji : Bool) (cfg : GitCommitMessage)
    (ht : TokStr placeholderToks cfg.templateContent)
    (hv : ∀ v ∈ [cfg.icon, cfg.type, cfg.scope, cfg.subject, cfg.body, cfg.footer],
      ∀ c ∈ v, c ≠ '<' ∧ c ≠ '$') :
    messageCombine emoji { cfg with templateContent := messageCombine emoji cfg } =
      messageCombine emoji cfg := by
  have hv' : ∀ v ∈ [cfg.icon, cfg.type, cfg.scope, cfg.subject, cfg.body, cfg.footer],
      ∀ c ∈ v, c ≠ '<' := fun v hvm c hc => (hv v hvm c hc).1
  have hu : ∀ c ∈ messageCombine emoji cfg, c ≠ '<' :=
    messageCombine_no_lt emoji cfg ht hv'
  have h1 : substPasses emoji { cfg with templateContent := messageCombine emoji cfg } =
      messageCombine emoji cfg := substPasses_id emoji cfg _ hu
  show trim (substPasses emoji { cfg with templateContent := messageCombine emoji cfg }) = _
  rw [h1]
  show trim (trim (substPasses emoji cfg)) = trim (substPasses emoji cfg)
  exact trim_idem _

/-- C5 witness: idempotence at a concrete well-formed template and
field set. -/
theorem messageCombine_idem_wit :
    messageCombine true { cfgIdemWit with templateContent := messageCombine true cfgIdemWit } =
      messageCombine true cfgIdemWit :=
  messageCombine_idem true cfgIdemWit (tokStrB_sound (by decide)) (by decide)

/-! ## Version resolution theorems -/

theorem getProjectVersion_ne_empty {env : ConfigEnv} {s : String} {p : Option String}
    {v : String} (h : getProjectVersion env s p = some v) : v ≠ "" := by
  unfold getProjectVersion at h
  split at h
  · cases h
  · split at h
    · cases h
    · split at h
      · split at h
        · split at h
          · rename_i hvv
            injection h with h1
            subst h1
            simpa [bne_iff_ne] using hvv
          · cases h
        · cases h
      · cases h

/-- C1 counterexample: for the multi-project config `multiCfgFile`
(two named projects) and no projectName, the config-file step does not
return absent: `getProjectConfig` selects the first project, the
config step extracts that project's version, and `getCurrentVersion`
returns it instead of falling through to the VCS steps (an exact-match
tag `v9.9.9` is available but not used). -/
theorem multi_noname_uses_first_cex :
    getProjectConfigOf multiCfgFile none = some projAlpha ∧
    getProjectVersion cenvMulti "src/file.ts" none = some "1.2.3" ∧
    getCurrentVersion cenvMulti genvTagged (some "src/file.ts") none = Except.ok "1.2.3" := by
  decide

/-- C1 (amended): for every multi-project config with at least one
project and no (or empty) projectName given, the config-file step
selects the first listed project's sub-record rather than returning
absent; the no-guess behaviour exists only in `getVersionInfo`, which
blanks the version info for a multi-project config with no selected
project. -/
theorem getProjectConfig_multi_noname_first (cf : GCFile) (pn : Option String)
    (p : GCProj) (ps : List GCProj)
    (hc : cf.config = some (p :: ps)) (hpn : truthyS pn = false) :
    getProjectConfigOf cf pn = some p := by
  unfold getProjectConfigOf
  rw [hc, hpn]
  simp

/-- C1 witness: the amended claim evaluated on the two-project config
with no projectName. -/
theorem getProjectConfig_multi_noname_first_wit :
    getProjectConfigOf multiCfgFile none = some projAlpha :=
  getProjectConfig_multi_noname_first multiCfgFile none projAlpha [projBeta]
    (by decide) (by decide)

/-- C2: version resolution follows the strict priority chain of
`getCurrentVersion`: a version extracted through the project config
file wins over everything (in particular over an exact-match tag);
otherwise an exact-match tag with non-empty trimmed output is returned;
otherwise the trimmed short commit hash is returned. -/
theorem version_priority_chain (cenv : ConfigEnv) (genv : GitEnv) (fp : String)
    (pn : Option String) :
    (∀ v, getProjectVersion cenv fp pn = some v →
      getCurrentVersion cenv genv (some fp) pn = Except.ok v) ∧
    (truthyS (configVersionOf cenv (some fp) pn) = false →
      strTrim (tagOutputOf genv) ≠ "" →
      getCurrentVersion cenv genv (some fp) pn = Except.ok (strTrim (tagOutputOf genv))) ∧
    (∀ h, truthyS (configVersionOf cenv (some fp) pn) = false →
      strTrim (tagOutputOf genv) = "" → genv.shortHashRaw = some h →
      getCurrentVersion cenv genv (some fp) pn = Except.ok (strTrim h)) := by
  refine ⟨?_, ?_, ?_⟩
  · intro v hv
    have hne := getProjectVersion_ne_empty hv
    have hcv : configVersionOf cenv (some fp) pn = some v := hv
    simp only [getCurrentVersion]
    rw [hcv]
    have htv : truthyS (some v) = true := by
      simp only [truthyS, bne_iff_ne, decide_eq_true_eq]
      exact hne
    rw [if_pos htv]
    rfl
  · intro hcf htag
    simp only [getCurrentVersion]
    rw [hcf]
    simp only [Bool.false_eq_true, if_false]
    rw [if_pos (by simpa [bne_iff_ne] using htag)]
  · intro h hcf htag hh
    simp only [getCurrentVersion]
    rw [hcf]
    simp only [Bool.false_eq_true, if_false]
    rw [if_neg (by simp [bne_iff_ne, htag]), hh]

/-- C2 witness: the three priority cases at concrete environments —
config beats an available exact tag, the exact tag beats the hash, and
the hash is used when both earlier steps yield nothing. -/
theorem version_priority_chain_wit :
    getCurrentVersion cenvSingle genvTagged (some "f") none = Except.ok "1.2.3" ∧
    getCurrentVersion cenvNone genvTagged (some "f") none = Except.ok "v9.9.9" ∧
    getCurrentVersion cenvNone genvHashOnly (some "f") none = Except.ok "abcdef12" := by
  refine ⟨?_, ?_, ?_⟩
  · exact (version_priority_chain cenvSingle genvTagged "f" none).1 "1.2.3" (by decide)
  · have h := (version_priority_chain cenvNone genvTagged "f" none).2.1 (by decide) (by decide)
    have e : strTrim (tagOutputOf genvTagged) = "v9.9.9" := by decide
    rw [e] at h
    exact h
  · have h := (version_priority_chain cenvNone genvHashOnly "f" none).2.2 "abcdef12\n"
      (by decide) (by decide) (by decide)
    have e : strTrim "abcdef12\n" = "abcdef12" := by decide
    rw [e] at h
    exact h

/-- C7: version extraction from a target file returns the first
capture group when present, else the whole match, trimmed, and null on
no match: the spec's pattern on `{"version": "1.2.3"}` yields exactly
`1.2.3`; the same pattern on non-numeric content yields nothing; a
group-less pattern returns the whole match trimmed; a missing file
yields nothing. -/
theorem readVersionFromFile_examples :
    readVersionFromFile (some verContent) verPat = some "1.2.3" ∧
    readVersionFromFile (some "\x7b\"version\": \"x\"\x7d") verPat = none ∧
    readVersionFromFile (some "v= 1.2 ") "\\s[\\d.]+\\s" = some "1.2" ∧
    readVersionFromFile none verPat = none := by
  decide

/-! ## Git Flow theorems -/

/-- C3: `finishRelease("1.0.0", keepBranch := false)` on `stRelease`
issues — after the four read-only lookups of the persisted settings —
exactly the ordered sequence checkout master, best-effort pull,
`merge --no-ff release/1.0.0`, annotated tag `1.0.0` with the default
message `Release 1.0.0` (or the given message when one is supplied),
checkout develop, best-effort pull, `merge --no-ff` again, and
deletion of the local release branch.  Afterwards master contains the
merge commit (3), the tag `1.0.0` points at that merge commit, develop
contains its merge commit (4), and `release/1.0.0` no longer exists;
with `keepBranch := true` the branch survives and no deletion is
issued. -/
theorem finishRelease_sequence_and_postconditions :
    (finishRelease stRelease "1.0.0" false none).1 = Except.ok () ∧
    (finishRelease stRelease "1.0.0" false none).2.trace =
      [["config", "--get", "gitflow.branch.master"],
       ["config", "--get", "gitflow.branch.develop"],
       ["config", "--get", "gitflow.prefix.release"],
       ["config", "--get", "gitflow.prefix.versiontag"],
       ["checkout", "master"],
       ["pull", "origin", "master"],
       ["merge", "--no-ff", "release/1.0.0"],
       ["tag", "-a", "1.0.0", "-m", "Release 1.0.0"],
       ["checkout", "develop"],
       ["pull", "origin", "develop"],
       ["merge", "--no-ff", "release/1.0.0"],
       ["branch", "-d", "release/1.0.0"]] ∧
    (finishRelease stRelease "1.0.0" false (some "ship it")).2.trace =
      [["config", "--get", "gitflow.branch.master"],
       ["config", "--get", "gitflow.branch.develop"],
       ["config", "--get", "gitflow.prefix.release"],
       ["config", "--get", "gitflow.prefix.versiontag"],
       ["checkout", "master"],
       ["pull", "origin", "master"],
       ["merge", "--no-ff", "release/1.0.0"],
       ["tag", "-a", "1.0.0", "-m", "ship it"],
       ["checkout", "develop"],
       ["pull", "origin", "develop"],
       ["merge", "--no-ff", "release/1.0.0"],
       ["branch", "-d", "release/1.0.0"]] ∧
    (finishRelease stRelease "1.0.0" false none).2.st =
      ⟨stdCfg, [("master", [3, 0, 2, 1, 0]), ("develop", [4, 1, 0, 2, 1, 0])],
       [("1.0.0", 3)], "develop", 5, false⟩ ∧
    stRelease.nextId ∈
      (List.lookup "master" (finishRelease stRelease "1.0.0" false none).2.st.branches).getD [] ∧
    (finishRelease stRelease "1.0.0" false none).2.st.tags = [("1.0.0", stRelease.nextId)] ∧
    stRelease.nextId + 1 ∈
      (List.lookup "develop" (finishRelease stRelease "1.0.0" false none).2.st.branches).getD [] ∧
    List.lookup "release/1.0.0" (finishRelease stRelease "1.0.0" false none).2.st.branches =
      none ∧
    List.lookup "release/1.0.0" (finishRelease stRelease "1.0.0" true none).2.st.branches =
      some [2, 1, 0] := by
  decide

/-- C6: branch classification tests the four role prefixes in the
fixed priority order feature, release, hotfix, support and returns the
first whose configured prefix starts the branch name, `none` when no
prefix matches: with stored default prefixes and with the fallback
defaults, `feature/login` classifies as feature and `main` as none;
when several prefixes match, the earlier role in the order wins. -/
theorem getCurrentBranchType_priority_and_examples :
    (getCurrentBranchType stFeatBr).1 = some GFType.feature ∧
    (getCurrentBranchType stFeatBrNoCfg).1 = some GFType.feature ∧
    (getCurrentBranchType stMainBr).1 = none ∧
    (getCurrentBranchType stAllMatch).1 = some GFType.feature ∧
    (getCurrentBranchType stRelMatch).1 = some GFType.release ∧
    (getCurrentBranchType stSupMatch).1 = some GFType.support := by
  decide

/-- C8: in all six start and finish operations run against a
repository whose `git pull` fails (`pullFails := true`), the failure is
swallowed: the operation returns success and the full remaining
command sequence is still issued (each trace below ends with the
commands that follow the pull). -/
theorem pull_failure_nonfatal :
    (startFeature stStartP "login").1 = Except.ok () ∧
    (startFeature stStartP "login").2.trace =
      [["config", "--get", "gitflow.branch.master"],
       ["config", "--get", "gitflow.branch.develop"],
       ["config", "--get", "gitflow.prefix.feature"],
       ["checkout", "develop"],
       ["pull", "origin", "develop"],
       ["checkout", "-b", "feature/login"]] ∧
    (startRelease stStartP "2.0.0").1 = Except.ok () ∧
    (startRelease stStartP "2.0.0").2.trace =
      [["config", "--get", "gitflow.branch.master"],
       ["config", "--get", "gitflow.branch.develop"],
       ["config", "--get", "gitflow.prefix.release"],
       ["checkout", "develop"],
       ["pull", "origin", "develop"],
       ["checkout", "-b", "release/2.0.0"]] ∧
    (startHotfix stStartP "1.0.1").1 = Except.ok () ∧
    (startHotfix stStartP "1.0.1").2.trace =
      [["config", "--get", "gitflow.branch.master"],
       ["config", "--get", "gitflow.branch.master"],
       ["config", "--get", "gitflow.prefix.hotfix"],
       ["checkout", "master"],
       ["pull", "origin", "master"],
       ["checkout", "-b", "hotfix/1.0.1"]] ∧
    (finishFeature stFeatFinP "login" false).1 = Except.ok () ∧
    (finishFeature stFeatFinP "login" false).2.trace =
      [["config", "--get", "gitflow.branch.develop"],
       ["config", "--get", "gitflow.prefix.feature"],
       ["checkout", "develop"],
       ["pull", "origin", "develop"],
       ["merge", "--no-ff", "feature/login"],
       ["branch", "-d", "feature/login"]] ∧
    (finishRelease stReleaseP "1.0.0" false none).1 = Except.ok () ∧
    (finishRelease stReleaseP "1.0.0" false none).2.trace =
      [["config", "--get", "gitflow.branch.master"],
       ["config", "--get", "gitflow.branch.develop"],
       ["config", "--get", "gitflow.prefix.release"],
       ["config", "--get", "gitflow.prefix.versiontag"],
       ["checkout", "master"],
       ["pull", "origin", "master"],
       ["merge", "--no-ff", "release/1.0.0"],
       ["tag", "-a", "1.0.0", "-m", "Release 1.0.0"],
       ["checkout", "develop"],
       ["pull", "origin", "develop"],
       ["merge", "--no-ff", "release/1.0.0"],
       ["branch", "-d", "release/1.0.0"]] ∧
    (finishHotfix stHotFinP "1.0.1" false none).1 = Except.ok () ∧
    (finishHotfix stHotFinP "1.0.1" false none).2.trace =
      [["config", "--get", "gitflow.branch.master"],
       ["config", "--get", "gitflow.branch.develop"],
       ["config", "--get", "gitflow.prefix.hotfix"],
       ["config", "--get", "gitflow.prefix.versiontag"],
       ["checkout", "master"],
       ["pull", "origin", "master"],
       ["merge", "--no-ff", "hotfix/1.0.1"],
       ["tag", "-a", "1.0.1", "-m", "Hotfix 1.0.1"],
       ["checkout", "develop"],
       ["pull", "origin", "develop"],
       ["merge", "--no-ff", "hotfix/1.0.1"],
       ["branch", "-d", "hotfix/1.0.1"]] := by
  decide

/-- C9 evaluation at the failing input: on a repository whose branch
listing contains `development` but not `develop`, `init` persists all
seven settings (and re-initialising overwrites them), yet the
development branch does not exist afterwards — the
`branches.includes(developBranch)` substring test is satisfied by
`development`, so no `checkout -b develop` is issued, contradicting
the ensure-develop-exists behaviour the claim (and the code's own
comment) state.  On a repository without such a name the branch is
created from the current HEAD as specified. -/
theorem init_develop_substring_bug :
    (initGitFlow stDevelopment dfltPartial).1 = Except.ok (mergeCfg dfltPartial) ∧
    List.lookup "gitflow.branch.master"
      (initGitFlow stDevelopment dfltPartial).2.st.cfg = some "master" ∧
    List.lookup "gitflow.branch.develop"
      (initGitFlow stDevelopment dfltPartial).2.st.cfg = some "develop" ∧
    List.lookup "gitflow.prefix.feature"
      (initGitFlow stDevelopment dfltPartial).2.st.cfg = some "feature/" ∧
    List.lookup "gitflow.prefix.release"
      (initGitFlow stDevelopment dfltPartial).2.st.cfg = some "release/" ∧
    List.lookup "gitflow.prefix.hotfix"
      (initGitFlow stDevelopment dfltPartial).2.st.cfg = some "hotfix/" ∧
    List.lookup "gitflow.prefix.support"
      (initGitFlow stDevelopment dfltPartial).2.st.cfg = some "support/" ∧
    List.lookup "gitflow.prefix.versiontag"
      (initGitFlow stDevelopment dfltPartial).2.st.cfg = some "" ∧
    List.lookup "develop" (initGitFlow stDevelopment dfltPartial).2.st.branches = none ∧
    (initGitFlow stDevelopment dfltPartial).2.trace =
      [["config", "gitflow.branch.master", "master"],
       ["config", "gitflow.branch.develop", "develop"],
       ["config", "gitflow.prefix.feature", "feature/"],
       ["config", "gitflow.prefix.release", "release/"],
       ["config", "gitflow.prefix.hotfix", "hotfix/"],
       ["config", "gitflow.prefix.support", "support/"],
       ["config", "gitflow.prefix.versiontag", ""],
       ["branch", "--list"]] ∧
    List.lookup "develop" (initGitFlow stMasterOnly dfltPartial).2.st.branches = some [0] ∧
    List.lookup "gitflow.branch.master"
      (initGitFlow (initGitFlow stMasterOnly dfltPartial).2.st mainPartial).2.st.cfg =
      some "main" := by
  decide

/-- C10: whenever Git Flow is not initialised (the stored master
branch setting is missing or blank), `startHotfix` fails with the
workflow-not-initialised error before issuing any mutating git
command: the repository state is unchanged and the trace holds only
the read-only settings lookup performed by the initialisation check. -/
theorem startHotfix_requires_init (st : RepoState) (version : String)
    (h : isInitializedB st = false) :
    startHotfix st version =
      (Except.error "Git Flow 未初始化，请先初始化 Git Flow",
       ⟨st, [["config", "--get", "gitflow.branch.master"]]⟩) := by
  have hrun : isInitializedRun ⟨st, []⟩ =
      (false, ⟨st, [["config", "--get", "gitflow.branch.master"]]⟩) := by
    unfold isInitializedRun runCmd executeGitCommand
    have e : exec st ["config", "--get", "gitflow.branch.master"] =
        (match List.lookup "gitflow.branch.master" st.cfg with
         | some v => (Except.ok v, st)
         | none => (Except.error "config 键不存在", st)) := rfl
    rw [e]
    unfold isInitializedB at h
    cases hl : List.lookup "gitflow.branch.master" st.cfg with
    | none => rfl
    | some v =>
      rw [hl] at h
      have h2 : (strTrim v != "") = false := h
      show ((strTrim v != ""), (⟨st, [["config", "--get", "gitflow.branch.master"]]⟩ : GitRun)) =
        (false, ⟨st, [["config", "--get", "gitflow.branch.master"]]⟩)
      rw [h2]
  simp only [startHotfix]
  rw [hrun]

/-- C10 witness: the uninitialised single-branch repository. -/
theorem startHotfix_requires_init_wit :
    startHotfix stMasterOnly "1.0.1" =
      (Except.error "Git Flow 未初始化，请先初始化 Git Flow",
       ⟨stMasterOnly, [["config", "--get", "gitflow.branch.master"]]⟩) :=
  startHotfix_requires_init stMasterOnly "1.0.1" (by decide)
